import Mathlib

/-!
Shallow embedding of `src/BowlingGame.cpp` (a ten-pin bowling scorer).

Pin counts are modelled as `Nat`.  In the C++ source rolls are `uint8_t`
values that the input layer validates into `[0,10]`; every arithmetic
operation the program performs on them (sums of at most 300) stays far
below every machine-width bound on all validated inputs, so no modular
reduction is needed in the model.  Frames are a tagged variant mirroring
the four `Frame` subclasses, each storing exactly the rolls its C++
constructor stores.
-/

namespace Bowling

/-- `PINS` constant from the source: number of pins per frame. -/
def PINS : Nat := 10

/-- `FRAMES` constant from the source: number of frames. -/
def FRAMES : Nat := 10

/-- `BASE_SCORE` constant from the source: base score for strike and spare. -/
def BASE_SCORE : Nat := 10

/-- The four `Frame` subclasses of the source as a tagged variant.
`normal r1 r2` stores rolls `(r1, r2)` (class `NormalFrame`);
`spare r1` stores rolls `(r1, PINS - r1)` (class `SpareFrame`, whose
constructor discards the second-roll argument);
`strike` stores rolls `(PINS, 0)` (class `StrikeFrame`);
`tenth r1 r2 r3` stores rolls `(r1, r2)` plus `thirdRoll = r3`
(class `TenthFrame`). -/
inductive Frame where
  | normal (r1 r2 : Nat)
  | spare (r1 : Nat)
  | strike
  | tenth (r1 r2 r3 : Nat)
  deriving DecidableEq

/-- `Frame::firstRoll`: the stored first roll of each variant. -/
def Frame.firstRoll : Frame → Nat
  | .normal r1 _ => r1
  | .spare r1 => r1
  | .strike => PINS
  | .tenth r1 _ _ => r1

/-- `Frame::secondRoll`: the stored second roll of each variant
(`SpareFrame(r1)` stored `PINS - r1`, `StrikeFrame` stored `0`). -/
def Frame.secondRoll : Frame → Nat
  | .normal _ r2 => r2
  | .spare r1 => PINS - r1
  | .strike => 0
  | .tenth _ r2 _ => r2

/-- `Frame::isStrike`: `firstRoll() == BASE_SCORE`. -/
def Frame.isStrike (f : Frame) : Bool :=
  f.firstRoll == BASE_SCORE

/-- `Frame::isSpare`:
`firstRoll() + secondRoll() == BASE_SCORE && firstRoll() != BASE_SCORE`. -/
def Frame.isSpare (f : Frame) : Bool :=
  (f.firstRoll + f.secondRoll == BASE_SCORE) && !(f.firstRoll == BASE_SCORE)

/-- The virtual `score()` of each subclass: `NormalFrame` returns
`roll1 + roll2`, `SpareFrame` and `StrikeFrame` return `BASE_SCORE`,
`TenthFrame` returns `roll1 + roll2 + thirdRoll`. -/
def Frame.score : Frame → Nat
  | .normal r1 r2 => r1 + r2
  | .spare _ => BASE_SCORE
  | .strike => BASE_SCORE
  | .tenth r1 r2 r3 => r1 + r2 + r3

/-- `FrameFactory::createFrame(frameIndex, r1, r2, r3)`: tenth-frame
position first, then strike, then spare, else normal. -/
def createFrame (frameIndex r1 r2 r3 : Nat) : Frame :=
  if frameIndex == FRAMES - 1 then Frame.tenth r1 r2 r3
  else if r1 == BASE_SCORE then Frame.strike
  else if r1 + r2 == BASE_SCORE then Frame.spare r1
  else Frame.normal r1 r2

/-- The `while` loop of `BowlingGame::processFrames` building the first
nine frames.  The list argument is the unconsumed suffix of `m_rolls`
(the source advances an index `i`; consuming the list is the same walk).
`numFrames` is `m_frames.size()`.  Returns the built frames and the
rolls left unconsumed for the tenth-frame block. -/
def processLoop : List Nat → Nat → List Frame × List Nat
  | [], _ => ([], [])
  | r1 :: rest, numFrames =>
    if FRAMES - 1 ≤ numFrames then ([], r1 :: rest)
    else if r1 == PINS then
      let p := processLoop rest (numFrames + 1)
      (createFrame numFrames r1 0 0 :: p.1, p.2)
    else
      match rest with
      | [] => ([createFrame numFrames r1 0 0], [])
      | r2 :: rest2 =>
        let p := processLoop rest2 (numFrames + 1)
        (createFrame numFrames r1 r2 0 :: p.1, p.2)

/-- `BowlingGame::processFrames`: run the nine-frame loop, then, if any
rolls remain, build the tenth frame: `r1`, then `r2` if present, then
`r3` only when a further roll exists and (`r1 == PINS` or
`r1 + r2 == PINS`). -/
def processFrames (rolls : List Nat) : List Frame :=
  let p := processLoop rolls 0
  match p.2 with
  | [] => p.1
  | r1 :: rest =>
    match rest with
    | [] => p.1 ++ [createFrame (FRAMES - 1) r1 0 0]
    | r2 :: rest2 =>
      let r3 := if rest2 ≠ [] && (r1 == PINS || r1 + r2 == PINS)
        then rest2.headD 0 else 0
      p.1 ++ [createFrame (FRAMES - 1) r1 r2 r3]

/-- `BowlingGame::strikeBonus(index)`: the next roll after the strike
plus the one after that, each read only when inside `m_rolls`. -/
def strikeBonus (rolls : List Nat) (index : Nat) : Nat :=
  if index + 1 < rolls.length then
    let bonus := rolls.getD (index + 1) 0
    if index + 2 < rolls.length then bonus + rolls.getD (index + 2) 0
    else bonus
  else 0

/-- `BowlingGame::spareBonus(index)`: the roll after the spare's two
rolls, read only when inside `m_rolls`. -/
def spareBonus (rolls : List Nat) (index : Nat) : Nat :=
  if index + 2 < rolls.length then rolls.getD (index + 2) 0 else 0

/-- The `for` loop of `BowlingGame::calculateScore`.  `i` is the frame
index, `rollIndex` the roll cursor, `total` the running `totalScore`.
Returns the `m_scores` entries pushed from this point on, paired with
the final `totalScore` (the function's return value). -/
def scoreLoop (rolls : List Nat) : List Frame → Nat → Nat → Nat → List Nat × Nat
  | [], _, _, total => ([], total)
  | f :: fs, i, rollIndex, total =>
    let frameScore := f.score +
      (if i < FRAMES - 1 then
        (if f.isStrike then strikeBonus rolls rollIndex
         else if f.isSpare then spareBonus rolls rollIndex
         else 0)
       else 0)
    let newTotal := total + frameScore
    let p := scoreLoop rolls fs (i + 1)
      (rollIndex + if f.isStrike then 1 else 2) newTotal
    (newTotal :: p.1, p.2)

/-- The `m_scores` vector filled by `BowlingGame::calculateScore` after
`processFrames`: cumulative totals, one per segmented frame. -/
def calcScores (rolls : List Nat) : List Nat :=
  (scoreLoop rolls (processFrames rolls) 0 0 0).1

/-- The value returned by `BowlingGame::calculateScore`. -/
def calculateScore (rolls : List Nat) : Nat :=
  (scoreLoop rolls (processFrames rolls) 0 0 0).2

/-- The literal roll sequence of `main` (non-user-driven build). -/
def exampleRolls : List Nat :=
  [1, 4, 4, 5, 6, 4, 5, 5, 10, 0, 1, 7, 3, 6, 4, 10, 2, 8, 6]

/-- The per-frame `frameScore` values computed by the `calculateScore`
loop, in frame order, with the same `i` / `rollIndex` bookkeeping as
`scoreLoop`.  Used to characterise the loop's outputs. -/
def contribs (rolls : List Nat) : List Frame → Nat → Nat → List Nat
  | [], _, _ => []
  | f :: fs, i, rollIndex =>
    (f.score +
      (if i < FRAMES - 1 then
        (if f.isStrike then strikeBonus rolls rollIndex
         else if f.isSpare then spareBonus rolls rollIndex
         else 0)
       else 0)) :: contribs rolls fs (i + 1) (rollIndex + if f.isStrike then 1 else 2)

/-- Cumulative sums starting from a running total `t`:
`cumFrom t [a, b, c] = [t + a, t + a + b, t + a + b + c]`. -/
def cumFrom (t : Nat) : List Nat → List Nat
  | [] => []
  | c :: cs => (t + c) :: cumFrom (t + c) cs

/-- Modelled from the spec: the bonus of a frame at roll cursor
`rollIndex`, written with total lookups that yield `0` past the end of
the sequence ("sum of the next 2 rolls starting at rollIndex+1" for a
strike, "the single roll at rollIndex+2" for a spare). -/
def specFrameBonus (rolls : List Nat) (f : Frame) (rollIndex : Nat) : Nat :=
  if f.isStrike then rolls.getD (rollIndex + 1) 0 + rolls.getD (rollIndex + 2) 0
  else if f.isSpare then rolls.getD (rollIndex + 2) 0
  else 0

/-- Modelled from the spec: the cumulative scores with bonuses given by
`specFrameBonus`, the cursor starting at `rollIndex` and advancing by 1
for a strike frame and by 2 otherwise. -/
def specScoresLoop (rolls : List Nat) : List Frame → Nat → Nat → Nat → List Nat
  | [], _, _, _ => []
  | f :: fs, i, rollIndex, total =>
    let c := f.score + if i < FRAMES - 1 then specFrameBonus rolls f rollIndex else 0
    (total + c) ::
      specScoresLoop rolls fs (i + 1)
        (rollIndex + if f.isStrike then 1 else 2) (total + c)

/-- The closed form of the frames the nine-frame loop builds out of
consecutive non-strike pairs: one `normal` frame per pair. -/
def pairFrames : List Nat → List Frame
  | r1 :: r2 :: rest => Frame.normal r1 r2 :: pairFrames rest
  | _ => []

/- ### Helper lemmas -/

lemma strikeBonus_getD (rolls : List Nat) (idx : Nat) :
    strikeBonus rolls idx = rolls.getD (idx + 1) 0 + rolls.getD (idx + 2) 0 := by
  unfold strikeBonus
  split
  next h1 =>
    split
    next => rfl
    next h2 =>
      rw [List.getD_eq_default rolls 0 (show rolls.length ≤ idx + 2 by omega)]
      exact rfl
  next h1 =>
    rw [List.getD_eq_default rolls 0 (show rolls.length ≤ idx + 1 by omega),
      List.getD_eq_default rolls 0 (show rolls.length ≤ idx + 2 by omega)]

lemma spareBonus_getD (rolls : List Nat) (idx : Nat) :
    spareBonus rolls idx = rolls.getD (idx + 2) 0 := by
  unfold spareBonus
  split
  next => rfl
  next h2 =>
    rw [List.getD_eq_default rolls 0 (show rolls.length ≤ idx + 2 by omega)]

lemma scoreLoop_fst (rolls : List Nat) :
    ∀ (fs : List Frame) (i ri t : Nat),
      (scoreLoop rolls fs i ri t).1 = cumFrom t (contribs rolls fs i ri)
  | [], _, _, _ => rfl
  | f :: fs, i, ri, t => by
    simp only [scoreLoop, contribs, cumFrom]
    exact congrArg _ (scoreLoop_fst rolls fs (i + 1) _ _)

lemma scoreLoop_snd (rolls : List Nat) :
    ∀ (fs : List Frame) (i ri t : Nat),
      (scoreLoop rolls fs i ri t).2 = t + (contribs rolls fs i ri).sum
  | [], _, _, t => by simp [scoreLoop, contribs]
  | f :: fs, i, ri, t => by
    simp only [scoreLoop, contribs, List.sum_cons]
    rw [scoreLoop_snd rolls fs (i + 1) _ _]
    omega

lemma contribs_length (rolls : List Nat) :
    ∀ (fs : List Frame) (i ri : Nat), (contribs rolls fs i ri).length = fs.length
  | [], _, _ => rfl
  | _ :: fs, i, ri => by
    simp only [contribs, List.length_cons]
    rw [contribs_length rolls fs (i + 1) _]

lemma cumFrom_length (t : Nat) : ∀ (cs : List Nat), (cumFrom t cs).length = cs.length
  | [] => rfl
  | c :: cs => by
    simp only [cumFrom, List.length_cons]
    rw [cumFrom_length (t + c) cs]

lemma cumFrom_head (t : Nat) (cs : List Nat) :
    ∀ y ∈ (cumFrom t cs).head?, t ≤ y := by
  cases cs with
  | nil => simp [cumFrom]
  | cons c cs => simp [cumFrom]

lemma cumFrom_chain (t : Nat) : ∀ (cs : List Nat), List.Chain' (· ≤ ·) (cumFrom t cs)
  | [] => List.chain'_nil
  | c :: cs =>
    List.Chain'.cons' (cumFrom_chain (t + c) cs)
      (fun y hy => cumFrom_head (t + c) cs y hy)

lemma cumFrom_getLastD (t : Nat) : ∀ (cs : List Nat), (cumFrom t cs).getLastD t = t + cs.sum
  | [] => by simp [cumFrom]
  | c :: cs => by
    simp only [cumFrom, List.getLastD_cons, List.sum_cons]
    rw [cumFrom_getLastD (t + c) cs]
    omega

lemma cumFrom_getD_succ (t : Nat) :
    ∀ (cs : List Nat) (j c : Nat), cs.get? (j + 1) = some c →
      (cumFrom t cs).getD (j + 1) 0 = (cumFrom t cs).getD j 0 + c
  | [], j, c, h => by simp at h
  | c0 :: cs, 0, c, h => by
    simp only [List.get?_cons_succ] at h
    cases cs with
    | nil => simp at h
    | cons c1 cs =>
      simp only [List.get?_cons_zero, Option.some_inj] at h
      subst h
      simp [cumFrom]
  | c0 :: cs, j + 1, c, h => by
    simp only [List.get?_cons_succ] at h
    simp only [cumFrom, List.getD_cons_succ]
    exact cumFrom_getD_succ (t + c0) cs j c h

lemma createFrame_ne_tenth {n : Nat} (r1 r2 r3 a b c : Nat) (hn : n ≠ FRAMES - 1) :
    createFrame n r1 r2 r3 ≠ Frame.tenth a b c := by
  intro h
  unfold createFrame at h
  split at h
  next he => exact hn (by simpa using he)
  next =>
    split at h
    next => exact Frame.noConfusion h
    next =>
      split at h
      next => exact Frame.noConfusion h
      next => exact Frame.noConfusion h

lemma processLoop_nil (n : Nat) : processLoop [] n = ([], []) := rfl

lemma processLoop_stop (r1 : Nat) (rest : List Nat) (n : Nat) (h : FRAMES - 1 ≤ n) :
    processLoop (r1 :: rest) n = ([], r1 :: rest) := by
  cases rest with
  | nil => rw [processLoop.eq_2, if_pos h]
  | cons r2 rest2 => rw [processLoop.eq_3, if_pos h]

lemma processLoop_strike (rest : List Nat) (n : Nat) (h : ¬ FRAMES - 1 ≤ n) :
    processLoop (PINS :: rest) n =
      (createFrame n PINS 0 0 :: (processLoop rest (n + 1)).1,
       (processLoop rest (n + 1)).2) := by
  cases rest with
  | nil => rw [processLoop.eq_2, if_neg h, if_pos (beq_self_eq_true PINS)]
  | cons r2 rest2 => rw [processLoop.eq_3, if_neg h, if_pos (beq_self_eq_true PINS)]

lemma processLoop_single (r1 n : Nat) (h : ¬ FRAMES - 1 ≤ n) (hs : r1 ≠ PINS) :
    processLoop [r1] n = ([createFrame n r1 0 0], []) := by
  rw [processLoop.eq_2, if_neg h, if_neg (by simpa using hs)]

lemma processLoop_pair (r1 r2 : Nat) (rest2 : List Nat) (n : Nat)
    (h : ¬ FRAMES - 1 ≤ n) (hs : r1 ≠ PINS) :
    processLoop (r1 :: r2 :: rest2) n =
      (createFrame n r1 r2 0 :: (processLoop rest2 (n + 1)).1,
       (processLoop rest2 (n + 1)).2) := by
  rw [processLoop.eq_3, if_neg h, if_neg (by simpa using hs)]

lemma processLoop_length : ∀ (rolls : List Nat) (n : Nat),
    (processLoop rolls n).1.length ≤ FRAMES - 1 - n
  | [], _ => by simp [processLoop_nil]
  | r1 :: rest, n => by
    have hF : FRAMES = 10 := rfl
    by_cases h9 : FRAMES - 1 ≤ n
    · simp [processLoop_stop r1 rest n h9]
    · by_cases hs : r1 = PINS
      · subst hs
        have ih := processLoop_length rest (n + 1)
        rw [processLoop_strike rest n h9]
        simp only [List.length_cons]
        omega
      · cases rest with
        | nil =>
          rw [processLoop_single r1 n h9 hs]
          simp only [List.length_singleton]
          omega
        | cons r2 rest2 =>
          have ih := processLoop_length rest2 (n + 1)
          rw [processLoop_pair r1 r2 rest2 n h9 hs]
          simp only [List.length_cons]
          omega

lemma processLoop_snd_nonempty : ∀ (rolls : List Nat) (n : Nat), n ≤ FRAMES - 1 →
    (processLoop rolls n).2 ≠ [] → (processLoop rolls n).1.length + n = FRAMES - 1
  | [], n, _, h => by simp [processLoop_nil] at h
  | r1 :: rest, n, hn, h => by
    have hF : FRAMES = 10 := rfl
    by_cases h9 : FRAMES - 1 ≤ n
    · rw [processLoop_stop r1 rest n h9]
      simp only [List.length_nil]
      omega
    · by_cases hs : r1 = PINS
      · subst hs
        rw [processLoop_strike rest n h9] at h ⊢
        have ih := processLoop_snd_nonempty rest (n + 1) (by omega) h
        simp only [List.length_cons]
        omega
      · cases rest with
        | nil =>
          rw [processLoop_single r1 n h9 hs] at h
          simp at h
        | cons r2 rest2 =>
          rw [processLoop_pair r1 r2 rest2 n h9 hs] at h ⊢
          have ih := processLoop_snd_nonempty rest2 (n + 1) (by omega) h
          simp only [List.length_cons]
          omega

lemma processLoop_no_tenth : ∀ (rolls : List Nat) (n a b c : Nat),
    Frame.tenth a b c ∉ (processLoop rolls n).1
  | [], n, a, b, c => by simp [processLoop_nil]
  | r1 :: rest, n, a, b, c => by
    have hF : FRAMES = 10 := rfl
    by_cases h9 : FRAMES - 1 ≤ n
    · simp [processLoop_stop r1 rest n h9]
    · have hne : n ≠ FRAMES - 1 := by omega
      by_cases hs : r1 = PINS
      · subst hs
        rw [processLoop_strike rest n h9]
        intro hmem
        rcases List.mem_cons.mp hmem with he | hm
        · exact createFrame_ne_tenth PINS 0 0 a b c hne he.symm
        · exact processLoop_no_tenth rest (n + 1) a b c hm
      · cases rest with
        | nil =>
          rw [processLoop_single r1 n h9 hs]
          intro hmem
          rcases List.mem_cons.mp hmem with he | hm
          · exact createFrame_ne_tenth r1 0 0 a b c hne he.symm
          · simp at hm
        | cons r2 rest2 =>
          rw [processLoop_pair r1 r2 rest2 n h9 hs]
          intro hmem
          rcases List.mem_cons.mp hmem with he | hm
          · exact createFrame_ne_tenth r1 r2 0 a b c hne he.symm
          · exact processLoop_no_tenth rest2 (n + 1) a b c hm

lemma createFrame_tenth (r1 r2 r3 : Nat) :
    createFrame (FRAMES - 1) r1 r2 r3 = Frame.tenth r1 r2 r3 := by
  unfold createFrame
  rw [if_pos (beq_self_eq_true (FRAMES - 1))]

lemma createFrame_normal (n r1 r2 r3 : Nat) (hn : n ≠ FRAMES - 1)
    (h1 : r1 ≠ BASE_SCORE) (h2 : r1 + r2 ≠ BASE_SCORE) :
    createFrame n r1 r2 r3 = Frame.normal r1 r2 := by
  unfold createFrame
  rw [if_neg (by simpa using hn), if_neg (by simpa using h1),
    if_neg (by simpa using h2)]

lemma contribs_get?_of_ge (rolls : List Nat) :
    ∀ (fs : List Frame) (j i ri : Nat) (f : Frame), fs.get? j = some f →
      FRAMES - 1 ≤ i + j → (contribs rolls fs i ri).get? j = some f.score
  | [], j, _, _, _, h, _ => by simp at h
  | f0 :: fs, 0, i, ri, f, h, hge => by
    simp only [List.get?_cons_zero, Option.some_inj] at h
    subst h
    simp only [contribs, List.get?_cons_zero, Option.some_inj]
    rw [if_neg (by omega)]
    omega
  | f0 :: fs, j + 1, i, ri, f, h, hge => by
    simp only [List.get?_cons_succ] at h
    simp only [contribs, List.get?_cons_succ]
    exact contribs_get?_of_ge rolls fs j (i + 1) _ f h (by omega)

lemma scoreLoop_fst_eq_spec (rolls : List Nat) :
    ∀ (fs : List Frame) (i ri t : Nat),
      (scoreLoop rolls fs i ri t).1 = specScoresLoop rolls fs i ri t
  | [], _, _, _ => rfl
  | f :: fs, i, ri, t => by
    have hb : (if f.isStrike then strikeBonus rolls ri
        else if f.isSpare then spareBonus rolls ri else 0) =
        specFrameBonus rolls f ri := by
      unfold specFrameBonus
      rw [strikeBonus_getD, spareBonus_getD]
    simp only [scoreLoop, specScoresLoop, hb]
    exact congrArg (List.cons _) (scoreLoop_fst_eq_spec rolls fs _ _ _)

lemma scoreLoop_snd_no_bonus (rolls : List Nat) :
    ∀ (fs : List Frame) (i ri t : Nat),
      (∀ f ∈ fs, f.isStrike = false ∧ f.isSpare = false) →
      (scoreLoop rolls fs i ri t).2 = t + (fs.map Frame.score).sum
  | [], _, _, t, _ => by simp [scoreLoop]
  | f :: fs, i, ri, t, h => by
    have hf := h f (List.mem_cons_self f fs)
    simp only [scoreLoop, hf.1, hf.2, List.map_cons, List.sum_cons]
    rw [scoreLoop_snd_no_bonus rolls fs (i + 1) _ _
      (fun g hg => h g (List.mem_cons_of_mem f hg))]
    simp only [Bool.false_eq_true, if_false, ite_self]
    omega

lemma getD_take (l : List Nat) (n j : Nat) (h : j < n) :
    (l.take n).getD j 0 = l.getD j 0 := by
  rw [List.getD_eq_getD_get?, List.getD_eq_getD_get?, List.get?_take h]

lemma pairFrames_score_sum : ∀ (xs : List Nat), xs.length % 2 = 0 →
    ((pairFrames xs).map Frame.score).sum = xs.sum
  | [], _ => rfl
  | [x], h => by simp at h
  | x :: y :: rest, h => by
    have hr : rest.length % 2 = 0 := by
      simp only [List.length_cons] at h
      omega
    have ih := pairFrames_score_sum rest hr
    simp only [pairFrames, List.map_cons, List.sum_cons, Frame.score, List.sum_cons]
    omega

lemma pairFrames_flat : ∀ (xs : List Nat),
    (∀ k, 2 * k + 1 < xs.length → xs.getD (2 * k) 0 + xs.getD (2 * k + 1) 0 < PINS) →
    ∀ f ∈ pairFrames xs, f.isStrike = false ∧ f.isSpare = false
  | [], _, f, hf => by simp [pairFrames] at hf
  | [x], _, f, hf => by simp [pairFrames] at hf
  | x :: y :: rest, h, f, hf => by
    have hP : PINS = 10 := rfl
    simp only [pairFrames] at hf
    have hxy : x + y < PINS := by
      simpa using h 0 (by simp only [List.length_cons]; omega)
    rcases List.mem_cons.mp hf with rfl | hm
    · constructor
      · simp only [Frame.isStrike, Frame.firstRoll, BASE_SCORE]
        have hx : x ≠ 10 := by omega
        simpa using hx
      · simp only [Frame.isSpare, Frame.firstRoll, Frame.secondRoll, BASE_SCORE]
        have hs : x + y ≠ 10 := by omega
        simp [hs]
    · refine pairFrames_flat rest ?_ f hm
      intro k hk
      have hh := h (k + 1) (by simp only [List.length_cons]; omega)
      have e1 : (x :: y :: rest).getD (2 * (k + 1)) 0 = rest.getD (2 * k) 0 := by
        have e : 2 * (k + 1) = 2 * k + 1 + 1 := by ring
        rw [e, List.getD_cons_succ, List.getD_cons_succ]
      have e2 : (x :: y :: rest).getD (2 * (k + 1) + 1) 0 = rest.getD (2 * k + 1) 0 := by
        have e : 2 * (k + 1) + 1 = 2 * k + 1 + 1 + 1 := by ring
        rw [e, List.getD_cons_succ, List.getD_cons_succ]
      rw [e1, e2] at hh
      exact hh

lemma processLoop_pairs : ∀ (m : Nat) (rolls : List Nat) (n : Nat),
    m = FRAMES - 1 - n → n ≤ FRAMES - 1 → rolls.length = 2 * m + 2 →
    (∀ k, k < m → rolls.getD (2 * k) 0 + rolls.getD (2 * k + 1) 0 < PINS) →
    processLoop rolls n = (pairFrames (rolls.take (2 * m)), rolls.drop (2 * m))
  | 0, rolls, n, hm, hn, hlen, _ => by
    have hF : FRAMES = 10 := rfl
    cases rolls with
    | nil => simp only [List.length_nil] at hlen; omega
    | cons a rest =>
      rw [processLoop_stop a rest n (by omega)]
      simp [pairFrames]
  | m + 1, rolls, n, hm, hn, hlen, hp => by
    have hF : FRAMES = 10 := rfl
    have hP : PINS = 10 := rfl
    cases rolls with
    | nil => simp only [List.length_nil] at hlen; omega
    | cons r1 rest =>
      cases rest with
      | nil => simp only [List.length_cons, List.length_nil] at hlen; omega
      | cons r2 rest2 =>
        have hxy : r1 + r2 < PINS := by
          simpa using hp 0 (by omega)
        have hr1 : r1 ≠ PINS := by omega
        have h9 : ¬ FRAMES - 1 ≤ n := by omega
        rw [processLoop_pair r1 r2 rest2 n h9 hr1]
        have ih := processLoop_pairs m rest2 (n + 1) (by omega) (by omega)
          (by simp only [List.length_cons] at hlen; omega)
          (fun k hk => by
            have hh := hp (k + 1) (by omega)
            have e1 : (r1 :: r2 :: rest2).getD (2 * (k + 1)) 0 = rest2.getD (2 * k) 0 := by
              have e : 2 * (k + 1) = 2 * k + 1 + 1 := by ring
              rw [e, List.getD_cons_succ, List.getD_cons_succ]
            have e2 : (r1 :: r2 :: rest2).getD (2 * (k + 1) + 1) 0
                = rest2.getD (2 * k + 1) 0 := by
              have e : 2 * (k + 1) + 1 = 2 * k + 1 + 1 + 1 := by ring
              rw [e, List.getD_cons_succ, List.getD_cons_succ]
            rw [e1, e2] at hh
            exact hh)
        rw [ih]
        have hcf : createFrame n r1 r2 0 = Frame.normal r1 r2 :=
          createFrame_normal n r1 r2 0 (by omega)
            (by have hB : BASE_SCORE = 10 := rfl; omega)
            (by have hB : BASE_SCORE = 10 := rfl; omega)
        rw [hcf]
        have ht : (r1 :: r2 :: rest2).take (2 * (m + 1)) = r1 :: r2 :: rest2.take (2 * m) := by
          have e : 2 * (m + 1) = 2 * m + 1 + 1 := by ring
          rw [e, List.take_succ_cons, List.take_succ_cons]
        have hd : (r1 :: r2 :: rest2).drop (2 * (m + 1)) = rest2.drop (2 * m) := by
          have e : 2 * (m + 1) = 2 * m + 1 + 1 := by ring
          rw [e, List.drop_succ_cons, List.drop_succ_cons]
        rw [ht, hd]
        simp only [pairFrames]

lemma processFrames_eq (rolls : List Nat) :
    processFrames rolls =
      (processLoop rolls 0).1 ++
        (match (processLoop rolls 0).2 with
         | [] => []
         | [r1] => [createFrame (FRAMES - 1) r1 0 0]
         | r1 :: r2 :: rest2 =>
           [createFrame (FRAMES - 1) r1 r2
             (if rest2 ≠ [] && (r1 == PINS || r1 + r2 == PINS)
              then rest2.headD 0 else 0)]) := by
  simp only [processFrames]
  cases h : (processLoop rolls 0).2 with
  | nil => simp
  | cons r1 rest => cases rest <;> simp

lemma processFrames_length (rolls : List Nat) :
    (processFrames rolls).length ≤ FRAMES := by
  have hF : FRAMES = 10 := rfl
  have h1 := processLoop_length rolls 0
  rw [processFrames_eq rolls]
  cases h : (processLoop rolls 0).2 with
  | nil => simp; omega
  | cons r1 rest => cases rest <;> simp <;> omega

lemma processFrames_tenth_eq_nine (rolls : List Nat) (j r1 r2 r3 : Nat)
    (h : (processFrames rolls).get? j = some (Frame.tenth r1 r2 r3)) :
    j = FRAMES - 1 := by
  have hF : FRAMES = 10 := rfl
  rw [processFrames_eq rolls] at h
  by_cases hj : j < (processLoop rolls 0).1.length
  · rw [List.get?_append hj] at h
    exact absurd (List.get?_mem h) (processLoop_no_tenth rolls 0 r1 r2 r3)
  · rw [List.get?_append_right (by omega)] at h
    cases hsnd : (processLoop rolls 0).2 with
    | nil => rw [hsnd] at h; simp at h
    | cons a rest =>
      have hlen := processLoop_snd_nonempty rolls 0 (by omega) (by rw [hsnd]; simp)
      rw [hsnd] at h
      cases rest with
      | nil =>
        have : j - (processLoop rolls 0).1.length = 0 := by
          by_contra hne
          rw [List.get?_eq_none.mpr (by simp; omega)] at h
          exact Option.noConfusion h
        omega
      | cons b rest2 =>
        have : j - (processLoop rolls 0).1.length = 0 := by
          by_contra hne
          rw [List.get?_eq_none.mpr (by simp; omega)] at h
          exact Option.noConfusion h
        omega

/- ### Claim theorems -/

/-- C1: twelve consecutive rolls of 10 (a perfect game) segment and
score to the cumulative frame scores 30, 60, ..., 300 — each frame
contributing exactly 30 — and a total score of exactly 300. -/
theorem perfect_game_scores :
    calcScores (List.replicate 12 10) =
      [30, 60, 90, 120, 150, 180, 210, 240, 270, 300] ∧
    calculateScore (List.replicate 12 10) = 300 := by
  decide

/-- C2: `strikeBonus` at a cursor equals the sum of the rolls at
cursor+1 and cursor+2 of the raw sequence, each contributing 0 past the
end, and `spareBonus` equals the roll at cursor+2 (0 past the end); and
the scores computed by `calculateScore` coincide with the spec-side
recomputation in which the cursor starts at 0 and advances by 1 for a
strike frame and by 2 otherwise with bonuses given by those total
lookups. -/
theorem strike_spare_bonus_lookahead (rolls : List Nat) :
    (∀ idx, strikeBonus rolls idx = rolls.getD (idx + 1) 0 + rolls.getD (idx + 2) 0) ∧
    (∀ idx, spareBonus rolls idx = rolls.getD (idx + 2) 0) ∧
    (∀ fs i ri t, (scoreLoop rolls fs i ri t).1 = specScoresLoop rolls fs i ri t) ∧
    calcScores rolls = specScoresLoop rolls (processFrames rolls) 0 0 0 :=
  ⟨fun idx => strikeBonus_getD rolls idx,
   fun idx => spareBonus_getD rolls idx,
   fun fs i ri t => scoreLoop_fst_eq_spec rolls fs i ri t,
   scoreLoop_fst_eq_spec rolls (processFrames rolls) 0 0 0⟩

/-- C3: a segmented tenth frame only ever sits at frame position 9, its
contribution to the running total is exactly `r1 + r2 + r3` with no
external bonus added (even when `r1 = 10` or `r1 + r2 = 10`), and the
tenth frame with rolls 10, 4, 3 scores exactly 17. -/
theorem tenth_frame_contribution (rolls : List Nat) (j r1 r2 r3 : Nat)
    (h : (processFrames rolls).get? j = some (Frame.tenth r1 r2 r3)) :
    j = FRAMES - 1 ∧
    (calcScores rolls).getD j 0 = (calcScores rolls).getD (j - 1) 0 + (r1 + r2 + r3) ∧
    Frame.score (Frame.tenth 10 4 3) = 17 := by
  have hj := processFrames_tenth_eq_nine rolls j r1 r2 r3 h
  subst hj
  refine ⟨rfl, ?_, rfl⟩
  have hc : (contribs rolls (processFrames rolls) 0 0).get? (FRAMES - 1)
      = some (Frame.score (Frame.tenth r1 r2 r3)) :=
    contribs_get?_of_ge rolls (processFrames rolls) (FRAMES - 1) 0 0 _ h (by omega)
  unfold calcScores
  rw [scoreLoop_fst rolls]
  have h8 : FRAMES - 1 - 1 = 8 := rfl
  have h9 : FRAMES - 1 = 8 + 1 := rfl
  rw [h9] at hc
  rw [h8, h9]
  exact cumFrom_getD_succ 0 _ 8 _ hc

/-- C3 witness: the all-gutter 20-roll game has a tenth frame at
position 9 and satisfies the contribution equation there. -/
theorem tenth_frame_contribution_witness :
    (processFrames (List.replicate 20 0)).get? 9 = some (Frame.tenth 0 0 0) ∧
    (9 = FRAMES - 1 ∧
     (calcScores (List.replicate 20 0)).getD 9 0 =
       (calcScores (List.replicate 20 0)).getD (9 - 1) 0 + (0 + 0 + 0) ∧
     Frame.score (Frame.tenth 10 4 3) = 17) :=
  ⟨by decide, tenth_frame_contribution (List.replicate 20 0) 9 0 0 0 (by decide)⟩

/-- C4 counterexample: a single non-strike roll does NOT yield zero
completed frames and a total of 0 — on input `[5]` segmentation emits
one frame and the total is 5. -/
theorem single_roll_claim_false :
    ¬ ((processFrames [5]).length = 0 ∧ calculateScore [5] = 0) := by
  decide

/-- C4 amended: a roll sequence holding exactly one roll `r < 10`
segments into the single frame `Normal(r, 0)` (the missing second roll
entering as pin count 0) and the computed total score is `r`, not 0. -/
theorem single_roll_one_normal_frame (r : Nat) (h : r < PINS) :
    processFrames [r] = [Frame.normal r 0] ∧ calculateScore [r] = r := by
  have hP : PINS = 10 := rfl
  have hF : FRAMES = 10 := rfl
  have hB : BASE_SCORE = 10 := rfl
  have hcf : createFrame 0 r 0 0 = Frame.normal r 0 :=
    createFrame_normal 0 r 0 0 (by omega) (by omega) (by omega)
  have hfr : processFrames [r] = [Frame.normal r 0] := by
    rw [processFrames_eq, processLoop_single r 0 (by omega) (by omega), hcf]
    rfl
  have hall : ∀ f ∈ [Frame.normal r 0], f.isStrike = false ∧ f.isSpare = false := by
    intro f hf
    simp only [List.mem_singleton] at hf
    subst hf
    constructor
    · simp only [Frame.isStrike, Frame.firstRoll, BASE_SCORE]
      have hx : r ≠ 10 := by omega
      simpa using hx
    · simp only [Frame.isSpare, Frame.firstRoll, Frame.secondRoll, BASE_SCORE]
      have hx : r + 0 ≠ 10 := by omega
      simp [hx]
  refine ⟨hfr, ?_⟩
  unfold calculateScore
  rw [hfr, scoreLoop_snd_no_bonus [r] [Frame.normal r 0] 0 0 0 hall]
  simp [Frame.score]

/-- C4 amended witness: the single-roll sequence `[5]`. -/
theorem single_roll_one_normal_frame_witness :
    5 < PINS ∧ (processFrames [5] = [Frame.normal 5 0] ∧ calculateScore [5] = 5) :=
  ⟨by decide, single_roll_one_normal_frame 5 (by decide)⟩

/-- C5 counterexample: on the literal example sequence of `main`, the
tenth frame holds the rolls 2, 8, 6 — not 10, 2, 8 as claimed. -/
theorem example_game_tenth_not_ten_two_eight :
    (processFrames exampleRolls).get? 9 = some (Frame.tenth 2 8 6) ∧
    ¬ ((processFrames exampleRolls).get? 9 = some (Frame.tenth 10 2 8)) := by
  decide

/-- C5 amended: the literal example sequence segments into exactly 10
frames, the 9th frame (index 8) a Strike and the tenth frame holding
the rolls 2, 8, 6, and the computed total is the fixed value 133 (the
computation is a pure function of the input, hence reproducible). -/
theorem example_game_segmentation_and_score :
    processFrames exampleRolls =
      [Frame.normal 1 4, Frame.normal 4 5, Frame.spare 6, Frame.spare 5,
       Frame.strike, Frame.normal 0 1, Frame.spare 7, Frame.spare 6,
       Frame.strike, Frame.tenth 2 8 6] ∧
    (processFrames exampleRolls).length = FRAMES ∧
    (processFrames exampleRolls).get? 8 = some Frame.strike ∧
    (processFrames exampleRolls).get? 9 = some (Frame.tenth 2 8 6) ∧
    calculateScore exampleRolls = 133 := by
  decide

/-- C7: the factory's precedence — tenth-frame position always yields
the tenth variant regardless of roll values; otherwise first roll 10
yields Strike; otherwise a pair summing to 10 yields Spare; otherwise
Normal. -/
theorem createFrame_precedence (i r1 r2 r3 : Nat) :
    (i = FRAMES - 1 → createFrame i r1 r2 r3 = Frame.tenth r1 r2 r3) ∧
    (i ≠ FRAMES - 1 → r1 = 10 → createFrame i r1 r2 r3 = Frame.strike) ∧
    (i ≠ FRAMES - 1 → r1 ≠ 10 → r1 + r2 = 10 →
      createFrame i r1 r2 r3 = Frame.spare r1) ∧
    (i ≠ FRAMES - 1 → r1 ≠ 10 → r1 + r2 ≠ 10 →
      createFrame i r1 r2 r3 = Frame.normal r1 r2) := by
  have hB : BASE_SCORE = 10 := rfl
  refine ⟨?_, ?_, ?_, ?_⟩
  · intro hi
    subst hi
    exact createFrame_tenth r1 r2 r3
  · intro hi h1
    unfold createFrame
    rw [if_neg (by simpa using hi), if_pos (by simp [BASE_SCORE, h1])]
  · intro hi h1 h2
    unfold createFrame
    rw [if_neg (by simpa using hi), if_neg (by simp [BASE_SCORE]; omega),
      if_pos (by simp [BASE_SCORE]; omega)]
  · intro hi h1 h2
    exact createFrame_normal i r1 r2 r3 hi (by omega) (by omega)

/-- C7 witness: the four precedence branches at concrete inputs. -/
theorem createFrame_precedence_witness :
    ((9 : Nat) = FRAMES - 1 ∧ createFrame 9 10 2 8 = Frame.tenth 10 2 8) ∧
    ((0 : Nat) ≠ FRAMES - 1 ∧ (10 : Nat) = 10 ∧ createFrame 0 10 0 0 = Frame.strike) ∧
    ((1 : Nat) ≠ FRAMES - 1 ∧ (6 : Nat) ≠ 10 ∧ 6 + 4 = 10 ∧
      createFrame 1 6 4 0 = Frame.spare 6) ∧
    ((2 : Nat) ≠ FRAMES - 1 ∧ (3 : Nat) ≠ 10 ∧ 3 + 5 ≠ 10 ∧
      createFrame 2 3 5 0 = Frame.normal 3 5) :=
  ⟨⟨by decide, (createFrame_precedence 9 10 2 8).1 (by decide)⟩,
   ⟨by decide, rfl, (createFrame_precedence 0 10 0 0).2.1 (by decide) rfl⟩,
   ⟨by decide, by decide, by decide,
    (createFrame_precedence 1 6 4 0).2.2.1 (by decide) (by decide) (by decide)⟩,
   ⟨by decide, by decide, by decide,
    (createFrame_precedence 2 3 5 0).2.2.2 (by decide) (by decide) (by decide)⟩⟩

/-- C8: scoring is total and fault-free — the score board has exactly
one cumulative entry per segmented frame, at most 10 frames are ever
segmented, and each bonus lookup that would fall past the end of the
roll sequence contributes 0 instead of faulting. -/
theorem incomplete_game_no_fault (rolls : List Nat) :
    (calcScores rolls).length = (processFrames rolls).length ∧
    (processFrames rolls).length ≤ FRAMES ∧
    (∀ idx, rolls.length ≤ idx + 1 → strikeBonus rolls idx = 0) ∧
    (∀ idx, rolls.length ≤ idx + 2 → spareBonus rolls idx = 0) := by
  refine ⟨?_, processFrames_length rolls, ?_, ?_⟩
  · unfold calcScores
    rw [scoreLoop_fst rolls, cumFrom_length, contribs_length]
  · intro idx hlen
    rw [strikeBonus_getD,
      List.getD_eq_default rolls 0 (show rolls.length ≤ idx + 1 by omega),
      List.getD_eq_default rolls 0 (show rolls.length ≤ idx + 2 by omega)]
  · intro idx hlen
    rw [spareBonus_getD,
      List.getD_eq_default rolls 0 (show rolls.length ≤ idx + 2 by omega)]

/-- C8 witness: the two-roll prefix `[10, 3]` of an in-progress game. -/
theorem incomplete_game_no_fault_witness :
    ((calcScores [10, 3]).length = (processFrames [10, 3]).length ∧
     (processFrames [10, 3]).length ≤ FRAMES) ∧
    (([10, 3] : List Nat).length ≤ 1 + 1 ∧ strikeBonus [10, 3] 1 = 0) ∧
    (([10, 3] : List Nat).length ≤ 0 + 2 ∧ spareBonus [10, 3] 0 = 0) := by
  obtain ⟨h1, h2, h3, h4⟩ := incomplete_game_no_fault [10, 3]
  exact ⟨⟨h1, h2⟩, ⟨by decide, h3 1 (by decide)⟩, ⟨by decide, h4 0 (by decide)⟩⟩

/-- C9: the cumulative score sequence is non-decreasing, the value
returned by `calculateScore` is its last entry (default 0), and when no
frames were segmented the returned total is 0. -/
theorem scores_monotone_total_eq_last (rolls : List Nat) :
    List.Chain' (fun a b => a ≤ b) (calcScores rolls) ∧
    calculateScore rolls = (calcScores rolls).getLastD 0 ∧
    ((processFrames rolls).length = 0 → calculateScore rolls = 0) := by
  refine ⟨?_, ?_, ?_⟩
  · unfold calcScores
    rw [scoreLoop_fst rolls]
    exact cumFrom_chain 0 _
  · unfold calculateScore calcScores
    rw [scoreLoop_fst rolls, scoreLoop_snd rolls, cumFrom_getLastD 0 _]
  · intro hlen
    have hnil : processFrames rolls = [] := List.length_eq_zero.mp hlen
    unfold calculateScore
    rw [hnil]
    rfl

/-- C9 witness: the empty roll sequence, where no frames are segmented
and the total is 0. -/
theorem scores_monotone_total_eq_last_witness :
    List.Chain' (fun a b => a ≤ b) (calcScores []) ∧
    calculateScore [] = (calcScores []).getLastD 0 ∧
    ((processFrames ([] : List Nat)).length = 0 ∧ calculateScore [] = 0) := by
  obtain ⟨h1, h2, h3⟩ := scores_monotone_total_eq_last []
  exact ⟨h1, h2, by decide, h3 (by decide)⟩

/-- C6: on any 20-roll sequence in which every frame's two rolls sum to
less than 10 (no strikes, no spares), the computed total equals the sum
of all 20 rolls. -/
theorem open_frames_total_is_sum (rolls : List Nat)
    (hlen : rolls.length = 2 * FRAMES)
    (hp : ∀ k, k < FRAMES → rolls.getD (2 * k) 0 + rolls.getD (2 * k + 1) 0 < PINS) :
    calculateScore rolls = rolls.sum := by
  have hF : FRAMES = 10 := rfl
  have hP : PINS = 10 := rfl
  have hseg := processLoop_pairs (FRAMES - 1) rolls 0 rfl (by omega) (by omega)
    (fun k hk => hp k (by omega))
  have hlen18 : (rolls.take (2 * (FRAMES - 1))).length = 2 * (FRAMES - 1) := by
    rw [List.length_take]
    omega
  have hdlen : (rolls.drop (2 * (FRAMES - 1))).length = 2 := by
    rw [List.length_drop]
    omega
  obtain ⟨a, b, hab⟩ := List.length_eq_two.mp hdlen
  have hsplit := List.take_append_drop (2 * (FRAMES - 1)) rolls
  have ha : rolls.getD (2 * (FRAMES - 1)) 0 = a := by
    conv_lhs => rw [← hsplit]
    rw [List.getD_append_right _ _ _ _ (by omega), hab, hlen18]
    simp
  have hb : rolls.getD (2 * (FRAMES - 1) + 1) 0 = b := by
    conv_lhs => rw [← hsplit]
    rw [List.getD_append_right _ _ _ _ (by omega), hab, hlen18]
    have e : 2 * (FRAMES - 1) + 1 - 2 * (FRAMES - 1) = 1 := by omega
    rw [e]
    simp
  have habLt : a + b < 10 := by
    have := hp (FRAMES - 1) (by omega)
    rw [ha, hb] at this
    omega
  have hframes : processFrames rolls =
      pairFrames (rolls.take (2 * (FRAMES - 1))) ++ [Frame.tenth a b 0] := by
    rw [processFrames_eq rolls, hseg, hab]
    simp [createFrame_tenth]
  have hall : ∀ f ∈ pairFrames (rolls.take (2 * (FRAMES - 1))) ++ [Frame.tenth a b 0],
      f.isStrike = false ∧ f.isSpare = false := by
    intro f hf
    rcases List.mem_append.mp hf with hm | hm
    · refine pairFrames_flat _ ?_ f hm
      intro k hk
      rw [hlen18] at hk
      rw [getD_take rolls (2 * (FRAMES - 1)) (2 * k) (by omega),
        getD_take rolls (2 * (FRAMES - 1)) (2 * k + 1) (by omega)]
      exact hp k (by omega)
    · simp only [List.mem_singleton] at hm
      subst hm
      constructor
      · simp only [Frame.isStrike, Frame.firstRoll, BASE_SCORE]
        have hx : a ≠ 10 := by omega
        simpa using hx
      · simp only [Frame.isSpare, Frame.firstRoll, Frame.secondRoll, BASE_SCORE]
        have hx : a + b ≠ 10 := by omega
        simp [hx]
  unfold calculateScore
  rw [hframes, scoreLoop_snd_no_bonus rolls _ 0 0 0 hall,
    List.map_append, List.sum_append,
    pairFrames_score_sum _ (by rw [hlen18]; omega)]
  have hsum : rolls.sum = (rolls.take (2 * (FRAMES - 1))).sum
      + (rolls.drop (2 * (FRAMES - 1))).sum := by
    conv_lhs => rw [← hsplit]
    rw [List.sum_append]
  rw [hsum, hab]
  simp [Frame.score]

/-- C6 witness: twenty rolls of 1 pin each, total 20. -/
theorem open_frames_total_is_sum_witness :
    (List.replicate 20 1).length = 2 * FRAMES ∧
    (∀ k, k < FRAMES →
      (List.replicate 20 1).getD (2 * k) 0 + (List.replicate 20 1).getD (2 * k + 1) 0 < PINS) ∧
    calculateScore (List.replicate 20 1) = (List.replicate 20 1).sum := by
  have hcond : ∀ k, k < FRAMES →
      (List.replicate 20 1).getD (2 * k) 0 + (List.replicate 20 1).getD (2 * k + 1) 0 < PINS := by
    intro k hk
    have hF : FRAMES = 10 := rfl
    rw [hF] at hk
    interval_cases k <;> decide
  exact ⟨by decide, hcond, open_frames_total_is_sum (List.replicate 20 1) (by decide) hcond⟩

/-- C10: every Spare the factory constructs records first roll `r1` and
second roll `10 - r1` (the factory's second-roll argument is
discarded), sums its two stored rolls to exactly 10, and satisfies
`isSpare`; every Strike it constructs stores the rolls (10, 0) and
satisfies `isStrike`. -/
theorem factory_spare_strike_invariant (i r1 r2 r3 : Nat) :
    (∀ s, createFrame i r1 r2 r3 = Frame.spare s →
      s = r1 ∧ (Frame.spare s).firstRoll = s ∧
      (Frame.spare s).secondRoll = PINS - s ∧
      s + (Frame.spare s).secondRoll = PINS ∧
      (Frame.spare s).isSpare = true) ∧
    (createFrame i r1 r2 r3 = Frame.strike →
      Frame.strike.firstRoll = PINS ∧ Frame.strike.secondRoll = 0 ∧
      Frame.strike.isStrike = true) := by
  have hP : PINS = 10 := rfl
  constructor
  · intro s h
    unfold createFrame at h
    split at h
    next => exact Frame.noConfusion h
    next =>
      split at h
      next => exact Frame.noConfusion h
      next hstr =>
        split at h
        next hsp =>
          injection h with h'
          subst h'
          have hstr' : r1 ≠ 10 := by simpa [BASE_SCORE] using hstr
          have hsp' : r1 + r2 = 10 := by simpa [BASE_SCORE] using hsp
          have hlt : r1 < 10 := by omega
          refine ⟨rfl, rfl, rfl, ?_, ?_⟩
          · simp only [Frame.secondRoll]
            omega
          · simp only [Frame.isSpare, Frame.firstRoll, Frame.secondRoll, BASE_SCORE]
            simp only [Bool.and_eq_true, beq_iff_eq, Bool.not_eq_eq_eq_not, Bool.not_true,
              beq_eq_false_iff_ne]
            omega
        next => exact Frame.noConfusion h
  · intro _
    exact ⟨rfl, rfl, by decide⟩

/-- C10 witness: the factory really does emit a Spare on input
(1, 6, 4, 0) and a Strike on input (0, 10, 3, 0). -/
theorem factory_spare_strike_invariant_witness :
    (createFrame 1 6 4 0 = Frame.spare 6 ∧
     ((6 : Nat) = 6 ∧ (Frame.spare 6).firstRoll = 6 ∧
      (Frame.spare 6).secondRoll = PINS - 6 ∧
      6 + (Frame.spare 6).secondRoll = PINS ∧
      (Frame.spare 6).isSpare = true)) ∧
    (createFrame 0 10 3 0 = Frame.strike ∧
     (Frame.strike.firstRoll = PINS ∧ Frame.strike.secondRoll = 0 ∧
      Frame.strike.isStrike = true)) :=
  ⟨⟨by decide, (factory_spare_strike_invariant 1 6 4 0).1 6 (by decide)⟩,
   ⟨by decide, (factory_spare_strike_invariant 0 10 3 0).2 (by decide)⟩⟩

end Bowling
